import Mathlib

/-!
# Verification of the scroll-progress animation and layout subsystem

A shallow embedding, in Lean 4, of the scroll-linked animation and layout
logic of the event-website front end: the masonry distributor and its
responsive column count (Faq component), the piecewise-linear interpolation
curves configured in SectionWrapper and useScrollSection, the hash-navigation
retry loop (scrollToSection.js), and the character-walker scroll handler
(ScrollProgressCharacter.jsx).

JavaScript numbers are idealised as exact rationals, except where IEEE
special values matter (the scroll-fraction division), where an explicit
JS-number model with NaN and signed infinities is used.
-/

namespace Meraki

/-! ## JS number model

`JSNum` models the IEEE special values a JavaScript `number` can take in the
scroll handler: NaN, the two infinities, and finite values (idealised as
exact rationals).  Only the operations used by the embedded code are
defined: `/`, `*`, `Math.max`, `Math.min`, each following ECMAScript
semantics (NaN is absorbing; `x / 0` is `±Infinity` for `x ≠ 0` and NaN for
`x = 0`, since literal `0` is `+0`). -/

inductive JSNum : Type where
  | nan : JSNum
  | posInf : JSNum
  | negInf : JSNum
  | fin : ℚ → JSNum
deriving DecidableEq

/-- JavaScript division, restricted to the value shapes that occur here. -/
def jsDiv : JSNum → JSNum → JSNum
  | .nan, _ => .nan
  | _, .nan => .nan
  | .posInf, .posInf => .nan
  | .posInf, .negInf => .nan
  | .negInf, .posInf => .nan
  | .negInf, .negInf => .nan
  | .posInf, .fin b => if 0 ≤ b then .posInf else .negInf
  | .negInf, .fin b => if 0 ≤ b then .negInf else .posInf
  | .fin _, .posInf => .fin 0
  | .fin _, .negInf => .fin 0
  | .fin a, .fin b =>
    if b = 0 then (if a = 0 then .nan else if 0 < a then .posInf else .negInf)
    else .fin (a / b)

/-- JavaScript multiplication, restricted to the value shapes that occur here. -/
def jsMul : JSNum → JSNum → JSNum
  | .nan, _ => .nan
  | _, .nan => .nan
  | .posInf, .posInf => .posInf
  | .posInf, .negInf => .negInf
  | .negInf, .posInf => .negInf
  | .negInf, .negInf => .posInf
  | .posInf, .fin b => if b = 0 then .nan else if 0 < b then .posInf else .negInf
  | .negInf, .fin b => if b = 0 then .nan else if 0 < b then .negInf else .posInf
  | .fin a, .posInf => if a = 0 then .nan else if 0 < a then .posInf else .negInf
  | .fin a, .negInf => if a = 0 then .nan else if 0 < a then .negInf else .posInf
  | .fin a, .fin b => .fin (a * b)

/-- `Math.max` on two arguments: NaN if either argument is NaN. -/
def jsMax : JSNum → JSNum → JSNum
  | .nan, _ => .nan
  | _, .nan => .nan
  | .posInf, _ => .posInf
  | _, .posInf => .posInf
  | .negInf, b => b
  | a, .negInf => a
  | .fin a, .fin b => .fin (max a b)

/-- `Math.min` on two arguments: NaN if either argument is NaN. -/
def jsMin : JSNum → JSNum → JSNum
  | .nan, _ => .nan
  | _, .nan => .nan
  | .negInf, _ => .negInf
  | _, .negInf => .negInf
  | .posInf, b => b
  | a, .posInf => a
  | .fin a, .fin b => .fin (min a b)

/-! ## Character Walker scroll handler (ScrollProgressCharacter.jsx)

The handler reads `window.scrollY`, `document.documentElement.scrollHeight`
and `window.innerHeight` (all finite) and computes

  maxScroll = scrollHeight - innerHeight
  progress  = Math.min(Math.max((scrollY / maxScroll) * 100, 0), 100)

then updates the facing direction only when `Math.abs(scrollDelta) > 1`. -/

/-- The stored scroll progress computed by `handleScroll` in
ScrollProgressCharacter.jsx (0–100 percent scale), on the JS number model. -/
def progressOf (scrollY scrollHeight innerHeight : ℚ) : JSNum :=
  let maxScroll := scrollHeight - innerHeight
  jsMin (jsMax (jsMul (jsDiv (.fin scrollY) (.fin maxScroll)) (.fin 100)) (.fin 0)) (.fin 100)

/-- The facing direction after one scroll event: updated to the sign of the
delta only when `Math.abs(scrollDelta) > 1`, otherwise kept (the `setDirection`
call in handleScroll is guarded by the dead-zone test). -/
def directionAfter (prevDir : Int) (lastScrollY scrollY : ℚ) : Int :=
  let scrollDelta := scrollY - lastScrollY
  if 1 < |scrollDelta| then (if 0 < scrollDelta then 1 else -1) else prevDir

/-! ## Responsive column count (Faq component)

The `useState` initialiser and the `onResize` handler in the Faq component
each compute the column count from `window.innerWidth`.  Both code sites are
embedded separately, exactly as written. -/

/-- Column count computed by the `useState` initialiser in Faq. -/
def colsInit (w : ℚ) : Nat :=
  if w ≥ 1024 then 3 else if w ≥ 640 then 2 else 1

/-- Column count computed by the `onResize` handler in Faq. -/
def colsOnResize (w : ℚ) : Nat :=
  if w ≥ 1024 then 3 else if w ≥ 640 then 2 else 1

/-! ## Masonry distributor (Faq component)

`columns` in Faq is built by
`questions.forEach((item, idx) => arr[idx % cols].push(...))` starting from
`cols` empty arrays. -/

/-- One `arr[j].push(x)` step on a list of columns. -/
def push {α : Type} (arr : List (List α)) (j : Nat) (x : α) : List (List α) :=
  arr.set j (arr.getD j [] ++ [x])

/-- Round-robin masonry distribution: fold of `arr[idx % cols].push(item)`
over the enumerated item list, starting from `cols` empty columns. -/
def distribute {α : Type} (items : List α) (cols : Nat) : List (List α) :=
  items.enum.foldl (fun arr p => push arr (p.1 % cols) p.2) (List.replicate cols [])

/-! ## Interpolation engine

**Modelled from the spec:** the interpolation engine itself is framer-motion's
`useTransform`, an external dependency whose source is not part of this
repository; only its breakpoint/value configurations are.  Following the
spec's contract (§4.2): for `t ≤` the first breakpoint return the first
value, for `t ≥` the last breakpoint return the last value, otherwise
linearly interpolate between the two bounding breakpoints. -/

/-- Modelled from the spec: `evaluate(curve, t)` of the Interpolation Engine
(framer-motion `useTransform` is external to the repository).  A curve is an
ordered list of (breakpoint, value) pairs. -/
def evaluate : List (ℚ × ℚ) → ℚ → ℚ
  | [], _ => 0
  | [p], _ => p.2
  | p :: q :: rest, t =>
    if t ≤ p.1 then p.2
    else if t ≤ q.1 then p.2 + (q.2 - p.2) * (t - p.1) / (q.1 - p.1)
    else evaluate (q :: rest) t

/-! ## Curve configurations (SectionWrapper.jsx lines 82–110)

The `useTransform` calls in SectionWrapper, written as exact rationals
(JS decimal literals 0.15, 0.2, 0.25, 0.75, 0.8, 0.85, 0.95, 0.98). -/

/-- The content slide direction prop of SectionWrapper. -/
inductive Direction : Type where
  | up : Direction
  | down : Direction
  | left : Direction
  | right : Direction
deriving DecidableEq

/-- `useTransform(scrollYProgress, [0, 0.15], [1, 0])`. -/
def blendTopOpacityCurve : List (ℚ × ℚ) := [(0, 1), (3/20, 0)]

/-- `useTransform(scrollYProgress, [0.85, 1], [0, 1])`. -/
def blendBottomOpacityCurve : List (ℚ × ℚ) := [(17/20, 0), (1, 1)]

/-- `useTransform(scrollYProgress, [0, 0.2, 0.8, 1], [0, 1, 1, 0])`. -/
def contentOpacityCurve : List (ℚ × ℚ) := [(0, 0), (1/5, 1), (4/5, 1), (1, 0)]

/-- `useTransform(scrollYProgress, [0, 0.25, 0.75, 1], dir == up ? [80,0,0,-80] : dir == down ? [-80,0,0,80] : [0,0,0,0])`. -/
def contentYCurve : Direction → List (ℚ × ℚ)
  | .up => [(0, 80), (1/4, 0), (3/4, 0), (1, -80)]
  | .down => [(0, -80), (1/4, 0), (3/4, 0), (1, 80)]
  | _ => [(0, 0), (1/4, 0), (3/4, 0), (1, 0)]

/-- `useTransform(scrollYProgress, [0, 0.25, 0.75, 1], dir == left ? [80,0,0,-80] : dir == right ? [-80,0,0,80] : [0,0,0,0])`. -/
def contentXCurve : Direction → List (ℚ × ℚ)
  | .left => [(0, 80), (1/4, 0), (3/4, 0), (1, -80)]
  | .right => [(0, -80), (1/4, 0), (3/4, 0), (1, 80)]
  | _ => [(0, 0), (1/4, 0), (3/4, 0), (1, 0)]

/-- `useTransform(scrollYProgress, [0, 0.2, 0.8, 1], [0.95, 1, 1, 0.98])`. -/
def contentScaleCurve : List (ℚ × ℚ) := [(0, 19/20), (1/5, 1), (4/5, 1), (1, 49/50)]

/-! ## Hash navigator (scrollToSection.js)

`handleHashNavigation` reads `window.location.hash`; if truthy (non-empty)
it strips the leading `#` and schedules `attemptScroll(0)` after a 100 ms
delay.  `attemptScroll(attempts)` looks the element up; if found it scrolls,
else if `attempts < 10` it reschedules itself 100 ms later with
`attempts + 1`, else it gives up silently.  The DOM is abstracted as an
oracle `dom : String → Nat → Bool` telling whether `getElementById(id)`
succeeds at attempt number `k`; attempt `k` runs at time
`100 + 100 * k` ms.  The recursion is bounded by the `attempts < 10` guard,
so a structural fuel of 11 (never exhausted from `attempts = 0`) makes it
total. -/

/-- Outcome of one hash navigation: number of `getElementById` lookups
performed and the attempt indices at which `scrollIntoView` was invoked. -/
structure NavResult : Type where
  lookups : Nat
  scrolls : List Nat
deriving DecidableEq

/-- `attemptScroll` recursion with structural fuel; the source's
`attempts < 10` bound keeps the fuel from running out when started with
fuel 11 at attempt 0. -/
def attemptScrollGo (present : Nat → Bool) : Nat → Nat → NavResult
  | 0, _ => ⟨0, []⟩
  | fuel + 1, attempts =>
    if present attempts then ⟨1, [attempts]⟩
    else if attempts < 10 then
      let r := attemptScrollGo present fuel (attempts + 1)
      ⟨r.lookups + 1, r.scrolls⟩
    else ⟨1, []⟩

/-- The `attemptScroll` loop of scrollToSection.js, started at attempt 0. -/
def attemptScroll (present : Nat → Bool) : NavResult :=
  attemptScrollGo present 11 0

/-- `handleHashNavigation`: no-op on an empty (falsy) hash, otherwise runs
the retry loop against the oracle for `hash.substring(1)`. -/
def handleHashNavigation (hash : String) (dom : String → Nat → Bool) : NavResult :=
  if hash.length > 0 then attemptScroll (dom (hash.drop 1)) else ⟨0, []⟩

/-- Time (ms) at which attempt `k` runs: 100 ms initial delay, then one
100 ms retry interval per further attempt. -/
def attemptTime (k : Nat) : Nat := 100 + 100 * k

/-! ## Masonry distributor: lemmas -/

theorem push_length {α : Type} (arr : List (List α)) (j : Nat) (x : α) :
    (push arr j x).length = arr.length := by
  simp [push]

theorem getD_push_eq {α : Type} (arr : List (List α)) (j : Nat) (x : α) (h : j < arr.length) :
    (push arr j x).getD j [] = arr.getD j [] ++ [x] := by
  have h' : j < (push arr j x).length := by rwa [push_length]
  rw [List.getD_eq_getElem _ _ h']
  simp only [push]
  rw [List.getElem_set_self]

theorem getD_push_ne {α : Type} (arr : List (List α)) (j : Nat) (x : α) (c : Nat) (h : c ≠ j) :
    (push arr j x).getD c [] = arr.getD c [] := by
  by_cases hc : c < arr.length
  · have hc' : c < (push arr j x).length := by rwa [push_length]
    rw [List.getD_eq_getElem _ _ hc', List.getD_eq_getElem _ _ hc]
    simp only [push]
    rw [List.getElem_set_ne (Ne.symm h)]
  · have hlen : (push arr j x).length = arr.length := push_length arr j x
    rw [List.getD_eq_default _ _ (by omega), List.getD_eq_default _ _ (by omega)]

theorem foldl_push_length {α : Type} (cols : Nat) :
    ∀ (pairs : List (Nat × α)) (arr : List (List α)),
      (pairs.foldl (fun a p => push a (p.1 % cols) p.2) arr).length = arr.length
  | [], _ => rfl
  | (k, x) :: rest, arr => by
    rw [List.foldl_cons, foldl_push_length cols rest, push_length]

theorem foldl_push_getD {α : Type} (cols : Nat) :
    ∀ (pairs : List (Nat × α)) (arr : List (List α)), arr.length = cols →
      ∀ c, c < cols →
        (pairs.foldl (fun a p => push a (p.1 % cols) p.2) arr).getD c []
          = arr.getD c [] ++ (pairs.filter (fun p => p.1 % cols == c)).map Prod.snd
  | [], _, _, _, _ => by simp
  | (k, x) :: rest, arr, hlen, c, hc => by
    rw [List.foldl_cons, List.filter_cons]
    rw [foldl_push_getD cols rest (push arr (k % cols) x) (by rw [push_length, hlen]) c hc]
    by_cases hkc : k % cols = c
    · subst hkc
      rw [getD_push_eq arr (k % cols) x (by rw [hlen]; exact hc)]
      simp [List.append_assoc]
    · rw [getD_push_ne arr (k % cols) x c (fun hcj => hkc hcj.symm)]
      simp [hkc]

theorem distribute_length {α : Type} (items : List α) (cols : Nat) :
    (distribute items cols).length = cols := by
  rw [distribute, foldl_push_length, List.length_replicate]

theorem distribute_getD {α : Type} (items : List α) (cols : Nat) (c : Nat) (hc : c < cols) :
    (distribute items cols).getD c []
      = (items.enum.filter (fun p => p.1 % cols == c)).map Prod.snd := by
  rw [distribute,
    foldl_push_getD cols items.enum (List.replicate cols []) (List.length_replicate cols []) c hc]
  rw [List.getD_eq_getElem _ _ (by simpa using hc), List.getElem_replicate, List.nil_append]

theorem distribute_eq_cols {α : Type} (items : List α) (cols : Nat) :
    distribute items cols
      = (List.range cols).map
          (fun c => (items.enum.filter (fun p => p.1 % cols == c)).map Prod.snd) := by
  apply List.ext_getElem
  · simp [distribute_length]
  · intro n h1 h2
    have hn : n < cols := by simpa [distribute_length] using h1
    rw [List.getElem_map, List.getElem_range]
    rw [← List.getD_eq_getElem _ [] h1, distribute_getD items cols n hn]

theorem join_filter_perm {β : Type} (key : β → Nat) :
    ∀ (n : Nat) (l : List β), (∀ b ∈ l, key b < n) →
      (((List.range n).map (fun c => l.filter (fun b => key b == c))).flatten).Perm l
  | 0, l, h => by
    cases l with
    | nil => simp
    | cons b bs => exact absurd (h b (List.mem_cons_self b bs)) (by omega)
  | n + 1, l, h => by
    rw [List.range_succ, List.map_append, List.flatten_append]
    have hsub : ∀ c ∈ List.range n,
        l.filter (fun b => key b == c)
          = (l.filter (fun b => !(key b == n))).filter (fun b => key b == c) := by
      intro c hcmem
      have hcn : c < n := List.mem_range.mp hcmem
      rw [List.filter_filter]
      apply List.filter_congr
      intro b _
      by_cases hbn : key b = n
      · simp [hbn, Nat.ne_of_gt hcn]
      · simp [hbn]
    rw [List.map_congr_left hsub]
    have hIH : ((((List.range n).map
          (fun c => (l.filter (fun b => !(key b == n))).filter (fun b => key b == c)))).flatten).Perm
        (l.filter (fun b => !(key b == n))) := by
      apply join_filter_perm key n
      intro b hb
      have hb' := List.mem_filter.mp hb
      have : key b ≠ n := by simpa using hb'.2
      have := h b hb'.1
      omega
    simp only [List.map_cons, List.map_nil, List.flatten_cons, List.flatten_nil, List.append_nil]
    exact (hIH.append_right _).trans
      (List.perm_append_comm.trans (List.filter_append_perm _ l))

/-! ## Interpolation engine: lemmas -/

theorem pairwise_head_le_getLast (p : ℚ × ℚ) (l : List (ℚ × ℚ))
    (hp : (p :: l).Pairwise (fun a b => a.1 < b.1)) :
    p.1 ≤ ((p :: l).getLast (List.cons_ne_nil p l)).1 := by
  rcases List.mem_cons.mp (List.getLast_mem (List.cons_ne_nil p l)) with heq | hmem
  · rw [heq]
  · exact (List.rel_of_pairwise_cons hp hmem).le

theorem evaluate_of_le_head : (pts : List (ℚ × ℚ)) → (hne : pts ≠ []) → (t : ℚ) →
    t ≤ (pts.head hne).1 → evaluate pts t = (pts.head hne).2
  | [], hne, _, _ => absurd rfl hne
  | [_], _, _, _ => by simp [evaluate]
  | p :: q :: rest, _, t, h => by
    simp only [List.head_cons] at h ⊢
    simp only [evaluate]
    rw [if_pos h]

theorem evaluate_of_getLast_le : (pts : List (ℚ × ℚ)) → (hne : pts ≠ []) →
    pts.Pairwise (fun a b => a.1 < b.1) → (t : ℚ) →
    (pts.getLast hne).1 ≤ t → evaluate pts t = (pts.getLast hne).2
  | [], hne, _, _, _ => absurd rfl hne
  | [p], _, _, t, _ => by simp [evaluate, List.getLast_singleton]
  | p :: q :: rest, hne, hinc, t, h => by
    have hlast : (p :: q :: rest).getLast hne = (q :: rest).getLast (List.cons_ne_nil q rest) :=
      List.getLast_cons (List.cons_ne_nil q rest)
    rw [hlast] at h ⊢
    have hq : q.1 ≤ ((q :: rest).getLast (List.cons_ne_nil q rest)).1 :=
      pairwise_head_le_getLast q rest hinc.of_cons
    have hpq : p.1 < q.1 := List.rel_of_pairwise_cons hinc (List.mem_cons_self q rest)
    simp only [evaluate]
    rw [if_neg (not_le.mpr (lt_of_lt_of_le hpq (le_trans hq h)))]
    by_cases h2 : t ≤ q.1
    · cases rest with
      | nil =>
        have hql : ((q :: ([] : List (ℚ × ℚ))).getLast (List.cons_ne_nil q [])) = q :=
          List.getLast_singleton q (List.cons_ne_nil q [])
        rw [hql] at h ⊢
        have ht : t = q.1 := le_antisymm h2 h
        subst ht
        rw [if_pos (le_refl _)]
        have hden : q.1 - p.1 ≠ 0 := sub_ne_zero.mpr (ne_of_gt hpq)
        rw [mul_div_assoc, div_self hden, mul_one]
        ring
      | cons r rs =>
        exfalso
        have hmem : ((q :: r :: rs).getLast (List.cons_ne_nil q (r :: rs))) ∈ r :: rs := by
          rw [List.getLast_cons (List.cons_ne_nil r rs)]
          exact List.getLast_mem (List.cons_ne_nil r rs)
        have hqlast := List.rel_of_pairwise_cons hinc.of_cons hmem
        linarith
    · rw [if_neg h2]
      exact evaluate_of_getLast_le (q :: rest) (List.cons_ne_nil q rest) hinc.of_cons t h

theorem evaluate_mem : (pts : List (ℚ × ℚ)) →
    pts.Pairwise (fun a b => a.1 < b.1) → (b v : ℚ) → ((b, v) ∈ pts) →
    evaluate pts b = v
  | [], _, _, _, hmem => absurd hmem (List.not_mem_nil _)
  | [p], _, b, v, hmem => by
    rw [List.mem_singleton] at hmem
    simp [evaluate, ← hmem]
  | p :: q :: rest, hinc, b, v, hmem => by
    have hpq : p.1 < q.1 := List.rel_of_pairwise_cons hinc (List.mem_cons_self q rest)
    simp only [evaluate]
    rcases List.mem_cons.mp hmem with heq | hmem1
    · have hb : b = p.1 := congrArg Prod.fst heq
      have hv : v = p.2 := congrArg Prod.snd heq
      rw [if_pos (le_of_eq hb), hv]
    · have hpb : p.1 < b := List.rel_of_pairwise_cons hinc hmem1
      rw [if_neg (not_le.mpr hpb)]
      rcases List.mem_cons.mp hmem1 with heq2 | hmem2
      · have hb : b = q.1 := congrArg Prod.fst heq2
        have hv : v = q.2 := congrArg Prod.snd heq2
        rw [if_pos (le_of_eq hb), hb, hv]
        have hden : q.1 - p.1 ≠ 0 := sub_ne_zero.mpr (ne_of_gt hpq)
        rw [mul_div_assoc, div_self hden, mul_one]
        ring
      · have hqb : q.1 < b := List.rel_of_pairwise_cons hinc.of_cons hmem2
        rw [if_neg (not_le.mpr hqb)]
        exact evaluate_mem (q :: rest) hinc.of_cons b v hmem1

theorem evaluate_between : (pts : List (ℚ × ℚ)) →
    pts.Pairwise (fun a b => a.1 < b.1) → (t : ℚ) → (i : Nat) →
    (hi : i < pts.length) → (hi1 : i + 1 < pts.length) →
    pts[i].1 < t → t ≤ pts[i + 1].1 →
    evaluate pts t
      = pts[i].2 + (pts[i + 1].2 - pts[i].2) * (t - pts[i].1) / (pts[i + 1].1 - pts[i].1)
  | [], _, _, i, hi, _, _, _ => absurd hi (by simp)
  | [p], _, _, i, hi, hi1, _, _ => by
    simp only [List.length_singleton] at hi1
    omega
  | p :: q :: rest, hinc, t, 0, hi, hi1, h1, h2 => by
    simp only [List.getElem_cons_zero, List.getElem_cons_succ] at h1 h2 ⊢
    simp only [evaluate]
    rw [if_neg (not_le.mpr h1), if_pos h2]
  | p :: q :: rest, hinc, t, i + 1, hi, hi1, h1, h2 => by
    simp only [List.getElem_cons_succ] at h1 h2 ⊢
    have hi' : i < (q :: rest).length := by
      simp only [List.length_cons] at hi ⊢
      omega
    have hi1' : i + 1 < (q :: rest).length := by
      simp only [List.length_cons] at hi1 ⊢
      omega
    have hq_le : q.1 ≤ (q :: rest)[i].1 := by
      cases i with
      | zero => simp
      | succ j =>
        have hrel := List.pairwise_iff_getElem.mp hinc.of_cons 0 (j + 1)
          (by simp) hi' (by omega)
        simpa using hrel.le
    have hpq : p.1 < q.1 := List.rel_of_pairwise_cons hinc (List.mem_cons_self q rest)
    simp only [evaluate]
    rw [if_neg (not_le.mpr (lt_trans hpq (lt_of_le_of_lt hq_le h1))),
      if_neg (not_le.mpr (lt_of_le_of_lt hq_le h1))]
    exact evaluate_between (q :: rest) hinc.of_cons t i hi' hi1' h1 h2

/-! ## Hash navigator: lemmas -/

theorem attemptScrollGo_absent (present : Nat → Bool) (h : ∀ k, present k = false) :
    ∀ fuel attempts, attempts ≤ 10 → fuel + attempts = 11 →
      attemptScrollGo present fuel attempts = ⟨11 - attempts, []⟩
  | 0, attempts, hat, hf => by omega
  | fuel + 1, attempts, hat, hf => by
    simp only [attemptScrollGo, h attempts, Bool.false_eq_true, if_false]
    by_cases h10 : attempts < 10
    · rw [if_pos h10]
      rw [attemptScrollGo_absent present h fuel (attempts + 1) (by omega) (by omega)]
      simp only [NavResult.mk.injEq]
      exact ⟨by omega, trivial⟩
    · rw [if_neg h10]
      have h10' : attempts = 10 := by omega
      subst h10'
      rfl

theorem distribute_flatten_perm {α : Type} (items : List α) (cols : Nat) (hc : 0 < cols) :
    ((distribute items cols).flatten).Perm items := by
  rw [distribute_eq_cols]
  have h1 : (List.range cols).map
        (fun c => (items.enum.filter (fun p => p.1 % cols == c)).map Prod.snd)
      = ((List.range cols).map
          (fun c => items.enum.filter (fun p => p.1 % cols == c))).map (List.map Prod.snd) := by
    rw [List.map_map]
    rfl
  rw [h1, ← List.map_flatten]
  have h2 := (join_filter_perm (fun p => p.1 % cols) cols items.enum
    (fun _ _ => Nat.mod_lt _ hc)).map Prod.snd
  simpa [List.enum_map_snd] using h2

/-! ## Plateau segments of the configured curves -/

theorem evaluate_plateau (pts : List (ℚ × ℚ))
    (hinc : pts.Pairwise (fun a b => a.1 < b.1)) (t : ℚ) (i : Nat)
    (hi : i < pts.length) (hi1 : i + 1 < pts.length)
    (hv : pts[i].2 = pts[i + 1].2) (h1 : pts[i].1 ≤ t) (h2 : t ≤ pts[i + 1].1) :
    evaluate pts t = pts[i].2 := by
  rcases eq_or_lt_of_le h1 with heq | hlt
  · rw [← heq]
    exact evaluate_mem pts hinc pts[i].1 pts[i].2 (by simp)
  · rw [evaluate_between pts hinc t i hi hi1 hlt h2, ← hv]
    ring

theorem plateau_quad (a b c d : ℚ × ℚ) (t : ℚ)
    (hinc : [a, b, c, d].Pairwise (fun p q => p.1 < q.1))
    (hv : b.2 = c.2) (h1 : b.1 ≤ t) (h2 : t ≤ c.1) :
    evaluate [a, b, c, d] t = b.2 := by
  have h := evaluate_plateau [a, b, c, d] hinc t 1 (by norm_num) (by norm_num)
    (by simpa using hv) (by simpa using h1) (by simpa using h2)
  simpa using h

theorem contentOpacity_band (t : ℚ) (h1 : 1/5 ≤ t) (h2 : t ≤ 4/5) :
    evaluate contentOpacityCurve t = 1 :=
  plateau_quad (0, 0) (1/5, 1) (4/5, 1) (1, 0) t
    (by norm_num [List.pairwise_cons]) rfl h1 h2

theorem contentScale_band (t : ℚ) (h1 : 1/5 ≤ t) (h2 : t ≤ 4/5) :
    evaluate contentScaleCurve t = 1 :=
  plateau_quad (0, 19/20) (1/5, 1) (4/5, 1) (1, 49/50) t
    (by norm_num [List.pairwise_cons]) rfl h1 h2

theorem contentOffset_band (dir : Direction) (t : ℚ) (h1 : 1/4 ≤ t) (h2 : t ≤ 3/4) :
    evaluate (contentYCurve dir) t = 0 ∧ evaluate (contentXCurve dir) t = 0 := by
  cases dir with
  | up =>
    exact ⟨plateau_quad (0, 80) (1/4, 0) (3/4, 0) (1, -80) t
        (by norm_num [List.pairwise_cons]) rfl h1 h2,
      plateau_quad (0, 0) (1/4, 0) (3/4, 0) (1, 0) t
        (by norm_num [List.pairwise_cons]) rfl h1 h2⟩
  | down =>
    exact ⟨plateau_quad (0, -80) (1/4, 0) (3/4, 0) (1, 80) t
        (by norm_num [List.pairwise_cons]) rfl h1 h2,
      plateau_quad (0, 0) (1/4, 0) (3/4, 0) (1, 0) t
        (by norm_num [List.pairwise_cons]) rfl h1 h2⟩
  | left =>
    exact ⟨plateau_quad (0, 0) (1/4, 0) (3/4, 0) (1, 0) t
        (by norm_num [List.pairwise_cons]) rfl h1 h2,
      plateau_quad (0, 80) (1/4, 0) (3/4, 0) (1, -80) t
        (by norm_num [List.pairwise_cons]) rfl h1 h2⟩
  | right =>
    exact ⟨plateau_quad (0, 0) (1/4, 0) (3/4, 0) (1, 0) t
        (by norm_num [List.pairwise_cons]) rfl h1 h2,
      plateau_quad (0, -80) (1/4, 0) (3/4, 0) (1, 80) t
        (by norm_num [List.pairwise_cons]) rfl h1 h2⟩

/-! ## Claim theorems -/

/-- C1: the masonry distribution has `cols` columns; column `c` holds
exactly the items whose original index `i` satisfies `i % cols = c`, in
original relative order; the columns partition the items (their
concatenation is a permutation of the item list); and for `cols = 3` and
items `0..9` the columns are `[0,3,6,9]`, `[1,4,7]`, `[2,5,8]`. -/
theorem masonry_distribute_partition {α : Type} (items : List α) (cols : Nat) (hc : 0 < cols) :
    (distribute items cols).length = cols
    ∧ (∀ c, c < cols →
        (distribute items cols).getD c []
          = (items.enum.filter (fun p => p.1 % cols == c)).map Prod.snd)
    ∧ ((distribute items cols).flatten).Perm items
    ∧ distribute (List.range 10) 3 = [[0, 3, 6, 9], [1, 4, 7], [2, 5, 8]] :=
  ⟨distribute_length items cols,
   fun c hcc => distribute_getD items cols c hcc,
   distribute_flatten_perm items cols hc,
   by decide⟩

/-- Witness for the masonry distribution theorem at items `0..9`, `cols = 3`. -/
theorem masonry_distribute_partition_witness :
    0 < 3
    ∧ ((distribute (List.range 10) 3).length = 3
      ∧ (∀ c, c < 3 →
          (distribute (List.range 10) 3).getD c []
            = ((List.range 10).enum.filter (fun p => p.1 % 3 == c)).map Prod.snd)
      ∧ ((distribute (List.range 10) 3).flatten).Perm (List.range 10)
      ∧ distribute (List.range 10) 3 = [[0, 3, 6, 9], [1, 4, 7], [2, 5, 8]]) :=
  ⟨by decide, masonry_distribute_partition (List.range 10) 3 (by decide)⟩

/-- C2: on any curve with strictly increasing breakpoints, `evaluate`
returns the first value at or below the first breakpoint, the last value at
or beyond the last breakpoint, the exact configured value at every
breakpoint, and the linear interpolation of the two bounding values between
adjacent breakpoints; on the configured content-opacity curve
`[0, 0.2, 0.8, 1] → [0, 1, 1, 0]`, evaluating at `0.1` gives `0.5`. -/
theorem interpolation_engine_spec (pts : List (ℚ × ℚ)) (t : ℚ) (hne : pts ≠ [])
    (hinc : pts.Pairwise (fun a b => a.1 < b.1)) :
    (t ≤ (pts.head hne).1 → evaluate pts t = (pts.head hne).2)
    ∧ ((pts.getLast hne).1 ≤ t → evaluate pts t = (pts.getLast hne).2)
    ∧ (∀ i, (hi : i < pts.length) → evaluate pts (pts[i].1) = pts[i].2)
    ∧ (∀ i, (hi : i < pts.length) → (hi1 : i + 1 < pts.length) →
        pts[i].1 < t → t ≤ pts[i + 1].1 →
        evaluate pts t
          = pts[i].2 + (pts[i + 1].2 - pts[i].2) * (t - pts[i].1) / (pts[i + 1].1 - pts[i].1))
    ∧ evaluate contentOpacityCurve (1/10) = 1/2 :=
  ⟨fun h => evaluate_of_le_head pts hne t h,
   fun h => evaluate_of_getLast_le pts hne hinc t h,
   fun i hi => evaluate_mem pts hinc pts[i].1 pts[i].2 (by simp),
   fun i hi hi1 h1 h2 => evaluate_between pts hinc t i hi hi1 h1 h2,
   by norm_num [evaluate, contentOpacityCurve]⟩

/-- Witness for the interpolation theorem on the content-opacity curve at
`t = 0.1`. -/
theorem interpolation_engine_spec_witness :
    (contentOpacityCurve ≠ [] ∧ contentOpacityCurve.Pairwise (fun a b => a.1 < b.1))
    ∧ evaluate contentOpacityCurve (1/10) = 1/2 :=
  ⟨⟨by simp [contentOpacityCurve], by norm_num [contentOpacityCurve, List.pairwise_cons]⟩,
   (interpolation_engine_spec contentOpacityCurve (1/10) (by simp [contentOpacityCurve])
     (by norm_num [contentOpacityCurve, List.pairwise_cons])).2.2.2.2⟩

/-- C3: hash navigation for `#missing`, when the element never appears,
performs exactly 11 lookups (the initial delayed attempt plus the 10
bounded retries) and then stops; no scroll is ever invoked, and the loop
returns normally, surfacing no error. -/
theorem hash_navigation_missing_silent (dom : String → Nat → Bool)
    (h : ∀ k, dom "missing" k = false) :
    (handleHashNavigation "#missing" dom).lookups = 11
    ∧ (handleHashNavigation "#missing" dom).scrolls = [] := by
  have hstep : handleHashNavigation "#missing" dom = attemptScrollGo (dom "missing") 11 0 := by
    rw [handleHashNavigation, if_pos (by decide)]
    rfl
  rw [hstep, attemptScrollGo_absent (dom "missing") h 11 0 (by omega) (by omega)]
  exact ⟨rfl, rfl⟩

/-- Witness for the missing-element navigation theorem: a DOM oracle on
which no id ever resolves. -/
theorem hash_navigation_missing_silent_witness :
    (∀ k, (fun (_ : String) (_ : Nat) => false) "missing" k = false)
    ∧ ((handleHashNavigation "#missing" (fun _ _ => false)).lookups = 11
      ∧ (handleHashNavigation "#missing" (fun _ _ => false)).scrolls = []) :=
  ⟨fun _ => rfl, hash_navigation_missing_silent (fun _ _ => false) (fun _ => rfl)⟩

/-- C4: hash navigation for `#about` against a DOM where the element is
absent for the initial attempt and the first three retries and present from
the fourth retry on: exactly one scroll is invoked, at attempt 4, after 5
lookups in total, and its scheduled time `attemptTime 4 = 500` ms is at
least the 100 ms initial delay plus the 3 elapsed 100 ms retry intervals. -/
theorem hash_navigation_found_fourth_retry :
    (handleHashNavigation "#about" (fun s k => s == "about" && decide (4 ≤ k))).scrolls = [4]
    ∧ (handleHashNavigation "#about" (fun s k => s == "about" && decide (4 ≤ k))).lookups = 5
    ∧ attemptTime 4 = 500
    ∧ 100 + 3 * 100 ≤ attemptTime 4 := by
  decide

/-- C5: for any raw scroll position (negative or beyond the scrollable
range) over a document with a nonzero scrollable range, the character
walker's stored scroll progress is a finite value clamped to [0, 100]. -/
theorem walker_progress_clamped (scrollY scrollHeight innerHeight : ℚ)
    (h : scrollHeight - innerHeight ≠ 0) :
    ∃ q : ℚ, progressOf scrollY scrollHeight innerHeight = JSNum.fin q
      ∧ 0 ≤ q ∧ q ≤ 100 := by
  refine ⟨min (max (scrollY / (scrollHeight - innerHeight) * 100) 0) 100, ?_, ?_, ?_⟩
  · simp [progressOf, jsDiv, jsMul, jsMax, jsMin, h]
  · exact le_min (le_max_right _ _) (by norm_num)
  · exact min_le_right _ _

/-- Witness: negative overscroll `scrollY = -50` on a document of height
1800 in an 800 px viewport still yields a clamped finite progress. -/
theorem walker_progress_clamped_witness :
    ((1800 : ℚ) - 800 ≠ 0)
    ∧ ∃ q : ℚ, progressOf (-50) 1800 800 = JSNum.fin q ∧ 0 ≤ q ∧ q ≤ 100 :=
  ⟨by norm_num, walker_progress_clamped (-50) 1800 800 (by norm_num)⟩

/-- C6: when the document height equals the viewport height
(`maxScroll = 0`) and `scrollY = 0`, the handler computes `0/0 = NaN`,
which `Math.max` and `Math.min` propagate, so the stored scroll progress is
NaN rather than the clamped in-range value the spec requires: the
division-by-zero guard the spec calls for is absent from the code. -/
theorem walker_progress_nan_when_no_scroll_range :
    progressOf 0 800 800 = JSNum.nan := by
  norm_num [progressOf, jsDiv, jsMul, jsMax, jsMin]

/-- C7: the character walker's facing direction is unchanged when the
scroll delta's magnitude is at most 1 px, and becomes the sign of the
delta when the magnitude exceeds 1 px. -/
theorem walker_direction_deadzone (prevDir : Int) (lastScrollY scrollY : ℚ) :
    (|scrollY - lastScrollY| ≤ 1 →
      directionAfter prevDir lastScrollY scrollY = prevDir)
    ∧ (1 < |scrollY - lastScrollY| →
        (0 < scrollY - lastScrollY ∧ directionAfter prevDir lastScrollY scrollY = 1)
        ∨ (scrollY - lastScrollY < 0 ∧ directionAfter prevDir lastScrollY scrollY = -1)) := by
  constructor
  · intro h
    simp only [directionAfter]
    rw [if_neg (not_lt.mpr h)]
  · intro h
    rcases lt_or_le 0 (scrollY - lastScrollY) with hpos | hneg
    · left
      refine ⟨hpos, ?_⟩
      simp only [directionAfter]
      rw [if_pos h, if_pos hpos]
    · right
      have hne : scrollY - lastScrollY ≠ 0 := by
        intro h0
        rw [h0] at h
        norm_num at h
      have hlt : scrollY - lastScrollY < 0 := lt_of_le_of_ne hneg hne
      refine ⟨hlt, ?_⟩
      simp only [directionAfter]
      rw [if_pos h, if_neg (not_lt.mpr hlt.le)]

/-- Witness: a 0.5 px delta (from 100 to 100.5) leaves the direction at its
previous value -1. -/
theorem walker_direction_deadzone_witness :
    |(201/2 : ℚ) - 100| ≤ 1 ∧ directionAfter (-1) 100 (201/2) = -1 :=
  ⟨by rw [abs_le]; constructor <;> norm_num,
   (walker_direction_deadzone (-1) 100 (201/2)).1 (by rw [abs_le]; constructor <;> norm_num)⟩

/-- C8: the masonry column count is the pure width function (3 for
width ≥ 1024, else 2 for width ≥ 640, else 1), the resize handler computes
the same function as the mount-time initialiser, and exactly 1024 px gives
3 columns (inclusive boundary). -/
theorem masonry_column_count (w : ℚ) :
    (1024 ≤ w → colsInit w = 3)
    ∧ (640 ≤ w → w < 1024 → colsInit w = 2)
    ∧ (w < 640 → colsInit w = 1)
    ∧ colsOnResize w = colsInit w
    ∧ colsInit 1024 = 3 := by
  refine ⟨fun h => ?_, fun h1 h2 => ?_, fun h => ?_, rfl, by norm_num [colsInit]⟩
  · simp [colsInit, h]
  · simp [colsInit, h1, not_le.mpr h2]
  · have h' : ¬ (1024 : ℚ) ≤ w := not_le.mpr (h.trans (by norm_num))
    simp [colsInit, not_le.mpr h, h']

/-- Witness: at exactly 1024 px the column count is 3. -/
theorem masonry_column_count_witness :
    (1024 : ℚ) ≤ 1024 ∧ colsInit 1024 = 3 :=
  ⟨le_refl _, (masonry_column_count 1024).1 (le_refl _)⟩

/-- C9: the Section Composer's configured curves: the top gradient overlay
fades out over the first 15% (1 at 0, 0 at 0.15) and the bottom one fades
in over the last 15% (0 at 0.85, 1 at 1); content opacity is 0 at both
edges and exactly 1 throughout the 20–80% band; the content offset along
the configured direction slides from ±80 px to 0 across the middle band and
back out to ∓80 px at exit; content scale follows 0.95 → 1 → 0.98. -/
theorem section_composer_curves (t : ℚ) (dir : Direction) :
    (evaluate blendTopOpacityCurve 0 = 1
      ∧ evaluate blendTopOpacityCurve (3/20) = 0
      ∧ evaluate blendBottomOpacityCurve (17/20) = 0
      ∧ evaluate blendBottomOpacityCurve 1 = 1)
    ∧ (evaluate contentOpacityCurve 0 = 0
      ∧ evaluate contentOpacityCurve 1 = 0
      ∧ (1/5 ≤ t → t ≤ 4/5 → evaluate contentOpacityCurve t = 1))
    ∧ (evaluate (contentYCurve .up) 0 = 80 ∧ evaluate (contentYCurve .up) 1 = -80
      ∧ evaluate (contentYCurve .down) 0 = -80 ∧ evaluate (contentYCurve .down) 1 = 80
      ∧ evaluate (contentXCurve .left) 0 = 80 ∧ evaluate (contentXCurve .left) 1 = -80
      ∧ evaluate (contentXCurve .right) 0 = -80 ∧ evaluate (contentXCurve .right) 1 = 80
      ∧ (1/4 ≤ t → t ≤ 3/4 →
          evaluate (contentYCurve dir) t = 0 ∧ evaluate (contentXCurve dir) t = 0))
    ∧ (evaluate contentScaleCurve 0 = 19/20
      ∧ (1/5 ≤ t → t ≤ 4/5 → evaluate contentScaleCurve t = 1)
      ∧ evaluate contentScaleCurve 1 = 49/50) :=
  ⟨⟨by norm_num [evaluate, blendTopOpacityCurve], by norm_num [evaluate, blendTopOpacityCurve],
    by norm_num [evaluate, blendBottomOpacityCurve], by norm_num [evaluate, blendBottomOpacityCurve]⟩,
   ⟨by norm_num [evaluate, contentOpacityCurve], by norm_num [evaluate, contentOpacityCurve],
    fun h1 h2 => contentOpacity_band t h1 h2⟩,
   ⟨by norm_num [evaluate, contentYCurve], by norm_num [evaluate, contentYCurve],
    by norm_num [evaluate, contentYCurve], by norm_num [evaluate, contentYCurve],
    by norm_num [evaluate, contentXCurve], by norm_num [evaluate, contentXCurve],
    by norm_num [evaluate, contentXCurve], by norm_num [evaluate, contentXCurve],
    fun h1 h2 => contentOffset_band dir t h1 h2⟩,
   ⟨by norm_num [evaluate, contentScaleCurve],
    fun h1 h2 => contentScale_band t h1 h2,
    by norm_num [evaluate, contentScaleCurve]⟩⟩

/-- Witness: the section composer curves at `t = 1/2`, direction `up`. -/
theorem section_composer_curves_witness :
    ((1/5 : ℚ) ≤ 1/2 ∧ (1/2 : ℚ) ≤ 4/5 ∧ (1/4 : ℚ) ≤ 1/2 ∧ (1/2 : ℚ) ≤ 3/4)
    ∧ (evaluate contentOpacityCurve (1/2) = 1
      ∧ evaluate (contentYCurve .up) (1/2) = 0
      ∧ evaluate (contentXCurve .up) (1/2) = 0
      ∧ evaluate contentScaleCurve (1/2) = 1) := by
  have h := section_composer_curves (1/2) Direction.up
  refine ⟨⟨by norm_num, by norm_num, by norm_num, by norm_num⟩, ?_, ?_, ?_, ?_⟩
  · exact h.2.1.2.2 (by norm_num) (by norm_num)
  · exact (h.2.2.1.2.2.2.2.2.2.2.2 (by norm_num) (by norm_num)).1
  · exact (h.2.2.1.2.2.2.2.2.2.2.2 (by norm_num) (by norm_num)).2
  · exact h.2.2.2.2.1 (by norm_num) (by norm_num)

end Meraki
